import Mathlib

/-!
Formal model of the football fixtures dashboard (`src/App.tsx`).

Instants are modelled as integers (milliseconds since the Unix epoch, the
value of `Date.prototype.getTime`).  A JavaScript `Date` can also be an
*Invalid Date*, whose time value is `NaN`; we model a `Date` as
`Option Int`, with `none` standing for an Invalid Date.  Every JS
comparison involving `NaN` is false, which the `js*` helpers reproduce.
-/

/-- `Status` enum: `'UPCOMING' | 'LIVE' | 'FINISHED'` (App.tsx line 17). -/
inductive Status where
  | UPCOMING
  | LIVE
  | FINISHED
deriving DecidableEq, Repr

/-- A JavaScript `Date` value: `some t` is a valid date with time value `t`
(ms since epoch), `none` is an Invalid Date (time value `NaN`). -/
abbrev JsDate := Option Int

/-- JS `<` on two dates (valueOf coercion): any comparison with `NaN` is false. -/
def jsLt : JsDate → JsDate → Bool
  | some a, some b => decide (a < b)
  | _, _ => false

/-- JS `>=` on two dates: any comparison with `NaN` is false. -/
def jsGe : JsDate → JsDate → Bool
  | some a, some b => decide (b ≤ a)
  | _, _ => false

/-- `new Date(d.getTime() + k)`: `NaN` propagates, so an Invalid Date stays invalid. -/
def addMs : JsDate → Int → JsDate
  | some a, k => some (a + k)
  | none, _ => none

/-- `const matchDurationMs = 110 * 60 * 1000` (App.tsx line 68). -/
def matchDurationMs : Int := 110 * 60 * 1000

/-- `calculateStatus` (App.tsx lines 67–74), transliterated:
`if (now < kickoff) return 'UPCOMING';
 if (now >= kickoff && now < new Date(kickoff.getTime() + matchDurationMs)) return 'LIVE';
 return 'FINISHED';` -/
def calculateStatus (now kickoff : JsDate) : Status :=
  if jsLt now kickoff then .UPCOMING
  else if jsGe now kickoff && jsLt now (addMs kickoff matchDurationMs) then .LIVE
  else .FINISHED

/-- Position of a status in the natural progression `UPCOMING → LIVE → FINISHED`. -/
def statusRank : Status → Nat
  | .UPCOMING => 0
  | .LIVE => 1
  | .FINISHED => 2

/-- On valid dates the classifier is a three-way case split on `now` against
`kickoff` and `kickoff + 110min`. -/
theorem calculateStatus_some_some (now k : Int) :
    calculateStatus (some now) (some k) =
      if now < k then .UPCOMING
      else if now < k + matchDurationMs then .LIVE
      else .FINISHED := by
  simp only [calculateStatus, jsLt, jsGe, addMs, Bool.and_eq_true, decide_eq_true_eq]
  by_cases h1 : now < k
  · simp [h1]
  · by_cases h2 : now < k + matchDurationMs
    · simp [h1, h2, Int.not_lt.mp h1]
    · simp [h1, h2]

/-- C1: For every pair of instants (now, kickoff), the status classifier returns
`UPCOMING` exactly when `now < kickoff`, `LIVE` exactly when
`kickoff ≤ now < kickoff + 110min`, and `FINISHED` exactly when
`now ≥ kickoff + 110min`; in particular `classify(kickoff, kickoff) = LIVE` and
`classify(kickoff + 110min, kickoff) = FINISHED` (both boundaries half-open). -/
theorem calculateStatus_partition (now k : Int) :
    (calculateStatus (some now) (some k) = .UPCOMING ↔ now < k) ∧
    (calculateStatus (some now) (some k) = .LIVE ↔
      k ≤ now ∧ now < k + 110 * 60 * 1000) ∧
    (calculateStatus (some now) (some k) = .FINISHED ↔
      k + 110 * 60 * 1000 ≤ now) ∧
    calculateStatus (some k) (some k) = .LIVE ∧
    calculateStatus (some (k + 110 * 60 * 1000)) (some k) = .FINISHED := by
  have h := calculateStatus_some_some now k
  have hk := calculateStatus_some_some k k
  have hf := calculateStatus_some_some (k + 110 * 60 * 1000) k
  simp only [matchDurationMs] at h hk hf
  refine ⟨?_, ?_, ?_, ?_, ?_⟩
  · rw [h]; split
    · simp_all
    · split <;> simp_all
  · rw [h]; split
    · rename_i h1; simp; intro h2; omega
    · split
      · rename_i h1 h2; simp; omega
      · simp_all
  · rw [h]; split
    · rename_i h1; simp; omega
    · split
      · rename_i h1 h2; simp; omega
      · rename_i h1 h2; simp; omega
  · rw [hk]; split
    · omega
    · split
      · rfl
      · omega
  · rw [hf]; split
    · omega
    · split
      · omega
      · rfl

/-- C3: for a fixed valid kickoff, the classifier never moves backward in the
order `UPCOMING → LIVE → FINISHED` as `now` increases. -/
theorem calculateStatus_monotone (k now1 now2 : Int) (h : now1 ≤ now2) :
    statusRank (calculateStatus (some now1) (some k)) ≤
      statusRank (calculateStatus (some now2) (some k)) := by
  rw [calculateStatus_some_some, calculateStatus_some_some]
  simp only [matchDurationMs]
  by_cases h1 : now1 < k <;> by_cases h2 : now1 < k + 6600000 <;>
    by_cases h3 : now2 < k <;> by_cases h4 : now2 < k + 6600000 <;>
    simp [h1, h2, h3, h4, statusRank] <;> omega

/-- Concrete instantiation of `calculateStatus_monotone`. -/
theorem calculateStatus_monotone_witness :
    statusRank (calculateStatus (some 0) (some 0)) ≤
      statusRank (calculateStatus (some 7000000) (some 0)) :=
  calculateStatus_monotone 0 0 7000000 (by decide)

/-!
### Timestamp parser (`parseWIBDate`, App.tsx lines 54–65)

The source splits `dateStr` on `'/'` and `timeStr` on `':'`, maps
`Number` over the parts, destructures `[d, m, y]` and `[hh, mm]`, builds
the ISO string
`"${y pad 4}-${m pad 2}-${d pad 2}T${hh pad 2}:${mm pad 2}:00+07:00"`
and returns `new Date(iso)`.

Three behaviours are possible and `JsParseResult` captures all of them:

* If the date string splits into fewer than 3 parts (or the time string
  into fewer than 2), the missing destructured components are
  `undefined`, and `undefined.toString()` throws a `TypeError` while the
  ISO string is being built — the function throws.
* Otherwise a string is built and passed to `new Date`.  The string is a
  date `new Date` can parse exactly when every field renders as a plain
  decimal numeral that zero-pads to the exact ISO field width and the
  civil fields are in range (`1 ≤ month ≤ 12`, `1 ≤ day ≤` days in that
  month, `minute ≤ 59`, `hour ≤ 23` — or hour 24 with minute 0 — and
  `year ≤ 9999` so the year pads to exactly 4 digits).  Any other field
  rendering (`"NaN"`, a sign, a decimal point, too many digits) makes the
  string unparseable and `new Date` returns an Invalid Date.
-/

/-- Result of a call to `parseWIBDate`: the call can throw a `TypeError`,
return an Invalid Date, or return a valid `Date` with the given time value. -/
inductive JsParseResult where
  | throws
  | invalidDate
  | validDate (ms : Int)
deriving DecidableEq, Repr

/-- The contribution of one field string to the ISO string: `some n` when
`Number(s)` is the nonnegative integer `n` (so the field renders as the plain
decimal numeral of `n`, which `padStart` left-pads with zeros), `none` when
the rendering cannot be a zero-padded numeral — `Number(s)` is `NaN`
(rendering `"NaN"`), negative (rendering with a sign) or fractional
(rendering with a point), all of which make the ISO string unparseable.
`Number` trims whitespace, maps the empty string to `0` and accepts a
leading `+`; the exotic integer-valued literal forms (hexadecimal,
exponent, trailing fractional zeros) are outside the fixture grammar
`DD/MM/YYYY` / `HH:MM` and are not modelled. -/
def numField (s : List Char) : Option Nat :=
  let t := ((s.dropWhile Char.isWhitespace).reverse.dropWhile Char.isWhitespace).reverse
  if t.isEmpty then some 0
  else
    let t := match t with
      | '+' :: rest => rest
      | _ => t
    if !t.isEmpty && t.all Char.isDigit then
      some (t.foldl (fun n c => n * 10 + (c.toNat - 48)) 0)
    else none

/-- JS `String.prototype.split` with a single-character separator, on the
character list of the string (the library `String.splitOn` is not reducible
by the kernel, so the model recurses over characters directly; the two agree
on these inputs).  `"".split(sep)` is `[""]`, and separators at the ends
produce empty pieces, exactly as in JS. -/
def jsSplit (sep : Char) : List Char → List (List Char)
  | [] => [[]]
  | c :: rest =>
    match jsSplit sep rest with
    | [] => [[]]
    | h :: t => if c = sep then [] :: h :: t else (c :: h) :: t

/-- Gregorian leap-year rule used by `Date`. -/
def isLeapYear (y : Nat) : Bool :=
  y % 4 == 0 && (y % 100 != 0 || y % 400 == 0)

/-- Number of days in month `m` of year `y`. -/
def daysInMonth (y m : Nat) : Nat :=
  match m with
  | 2 => if isLeapYear y then 29 else 28
  | 4 | 6 | 9 | 11 => 30
  | _ => 31

/-- Days from 0000-03-01 (proleptic Gregorian) shifted by +400 years so the
computation stays in `Nat`: the civil day count of year `y - 400`, month `m`,
day `d` plus a constant.  This is the standard era/year-of-era civil-calendar
day count. -/
def daysFromCivilShifted (y m d : Nat) : Nat :=
  let y := if m ≤ 2 then y - 1 else y
  let era := y / 400
  let yoe := y % 400
  let mp := (m + 9) % 12
  let doy := (153 * mp + 2) / 5 + (d - 1)
  let doe := yoe * 365 + yoe / 4 - yoe / 100 + doy
  era * 146097 + doe

/-- The shifted day count of the Unix epoch 1970-01-01. -/
def epochShiftedDays : Nat := daysFromCivilShifted 2370 1 1

/-- Milliseconds since the Unix epoch of `y-m-d hh:mm:00` UTC. -/
def msOfCivilUTC (y m d hh mm : Nat) : Int :=
  ((daysFromCivilShifted (y + 400) m d : Int) - (epochShiftedDays : Int)) * 86400000
    + (hh : Int) * 3600000 + (mm : Int) * 60000

/-- The ISO string built from nonnegative integer fields parses to a valid
`Date` exactly when each field zero-pads to its exact ISO width and is in
range.  Hour 24 is accepted by the ISO grammar when the minutes (and the
constant `"00"` seconds) are zero. -/
def validCivil (y m d hh mm : Nat) : Bool :=
  y ≤ 9999 && 1 ≤ m && m ≤ 12 && 1 ≤ d && d ≤ daysInMonth y m &&
    mm ≤ 59 && (hh ≤ 23 || (hh == 24 && mm == 0))

/-- `parseWIBDate` (App.tsx lines 54–65).  The civil date-time is interpreted
at the fixed offset `+07:00`, so the time value subtracts 7 hours from the
UTC interpretation. -/
def parseWIBDate (dateStr timeStr : String) : JsParseResult :=
  let dparts := jsSplit '/' dateStr.data
  let tparts := jsSplit ':' timeStr.data
  if dparts.length < 3 || tparts.length < 2 then .throws
  else
    match numField (dparts.getD 0 []), numField (dparts.getD 1 []),
        numField (dparts.getD 2 []), numField (tparts.getD 0 []),
        numField (tparts.getD 1 []) with
    | some d, some m, some y, some hh, some mm =>
        if validCivil y m d hh mm then
          .validDate (msOfCivilUTC y m d hh mm - 7 * 3600000)
        else .invalidDate
    | _, _, _, _, _ => .invalidDate

/-!
### Data model and ingestion pipeline (`useAllMatches`, App.tsx lines 115–173)
-/

/-- `type Team = { id: number; name: string }` (App.tsx line 4). -/
structure Team where
  id : Int
  name : String
deriving DecidableEq, Repr

/-- The `teams: { home: Team; away: Team }` field of a raw match. -/
structure TeamPair where
  home : Team
  away : Team
deriving DecidableEq, Repr

/-- `type RawMatch` (App.tsx lines 5–10). -/
structure RawMatch where
  id : Int
  date : String
  time : String
  teams : TeamPair
deriving DecidableEq, Repr

/-- The `metadata` field of a raw league document (App.tsx line 12). -/
structure Metadata where
  league : String
  timezone : Option String
deriving DecidableEq, Repr

/-- `type RawLeague` (App.tsx lines 11–14). -/
structure RawLeague where
  metadata : Metadata
  «matches» : List RawMatch
deriving DecidableEq, Repr

/-- `type LeagueKey` (App.tsx line 16), listed in the insertion order of
`PUBLIC_FILES`, which is the order `Object.keys` yields. -/
inductive LeagueKey where
  | premierLeague
  | laLiga
  | bundesliga
  | serieA
deriving DecidableEq, Repr

/-- `type Match = RawMatch & { league; kickoff; status }` (App.tsx lines 19–23). -/
structure Match where
  id : Int
  date : String
  time : String
  teams : TeamPair
  league : LeagueKey
  kickoff : JsDate
  status : Status
deriving DecidableEq, Repr

/-- Building one `Match` inside `json.matches.map` (App.tsx lines 134–142):
`kickoff = parseWIBDate(m.date, m.time)` and
`status = calculateStatus(now, kickoff)`.  When `parseWIBDate` throws, the
exception escapes the `map`, rejects that league's promise and is caught by
the surrounding `try`/`catch`. -/
def buildMatch (now : Int) (league : LeagueKey) (m : RawMatch) : Except String Match :=
  match parseWIBDate m.date m.time with
  | .throws => .error "TypeError"
  | .invalidDate =>
      .ok ⟨m.id, m.date, m.time, m.teams, league, none,
        calculateStatus (some now) none⟩
  | .validDate ts =>
      .ok ⟨m.id, m.date, m.time, m.teams, league, some ts,
        calculateStatus (some now) (some ts)⟩

/-- One league's entry of the `Promise.all` array (App.tsx lines 130–144).
`doc` is the outcome of `fetch` + `res.json()`: `.error` covers a network
failure, a non-ok response (`throw new Error(...)`, line 132) and a document
of the wrong shape (reading `.matches.map` of a malformed document throws). -/
def loadLeague (now : Int) (league : LeagueKey) (doc : Except String RawLeague) :
    Except String (List Match) :=
  match doc with
  | .error e => .error e
  | .ok json => json.«matches».mapM (buildMatch now league)

/-- `Promise.all` over the four leagues followed by `entries.flat()`
(App.tsx lines 129–147).  The joined array is in `Object.keys` order.  Which
league's rejection wins the race is timing-dependent in JS; the model
propagates the first failing league in key order — the claims depend only on
whether the aggregate result is a failure. -/
def loadAll (now : Int) (docs : LeagueKey → Except String RawLeague) :
    Except String (List Match) :=
  match loadLeague now .premierLeague (docs .premierLeague),
      loadLeague now .laLiga (docs .laLiga),
      loadLeague now .bundesliga (docs .bundesliga),
      loadLeague now .serieA (docs .serieA) with
  | .ok a, .ok b, .ok c, .ok d => .ok (a ++ b ++ c ++ d)
  | .error e, _, _, _ => .error e
  | _, .error e, _, _ => .error e
  | _, _, .error e, _ => .error e
  | _, _, _, .error e => .error e

/-- One tick of the status refresher (App.tsx lines 156–165):
`prev.map((m) => ({ ...m, status: calculateStatus(now, m.kickoff) }))`. -/
def refreshTick (now : Int) (prev : List Match) : List Match :=
  prev.map fun m => { m with status := calculateStatus (some now) m.kickoff }

/-- `loadAll` succeeds only when every league's document was obtained: the
four-way match propagates the first failure. -/
theorem loadAll_ok_iff (now : Int) (docs : LeagueKey → Except String RawLeague)
    (res : List Match) :
    loadAll now docs = .ok res ↔
      ∃ a b c d, loadLeague now .premierLeague (docs .premierLeague) = .ok a ∧
        loadLeague now .laLiga (docs .laLiga) = .ok b ∧
        loadLeague now .bundesliga (docs .bundesliga) = .ok c ∧
        loadLeague now .serieA (docs .serieA) = .ok d ∧
        res = a ++ b ++ c ++ d := by
  unfold loadAll
  rcases hA : loadLeague now .premierLeague (docs .premierLeague) with eA | a <;>
    rcases hB : loadLeague now .laLiga (docs .laLiga) with eB | b <;>
    rcases hC : loadLeague now .bundesliga (docs .bundesliga) with eC | c <;>
    rcases hD : loadLeague now .serieA (docs .serieA) with eD | d <;>
    simp [eq_comm]

/-- A league whose document failed contributes a failure to the join. -/
theorem loadLeague_ok_doc (now : Int) (k : LeagueKey) (doc : Except String RawLeague)
    (l : List Match) (h : loadLeague now k doc = .ok l) : ∃ json, doc = .ok json := by
  cases doc with
  | error e => simp [loadLeague] at h
  | ok json => exact ⟨json, rfl⟩

/-- C5: if the fetch or shape validation of any single one of the four league
documents fails, the whole ingestion result is a single failure with no
matches committed; a successful result implies every league's document was
obtained, so a partially-populated collection is impossible. -/
theorem loadAll_aggregate_failure (now : Int) (docs : LeagueKey → Except String RawLeague) :
    ((∃ k e, docs k = .error e) → ∃ e, loadAll now docs = .error e) ∧
    (∀ res, loadAll now docs = .ok res → ∀ k, ∃ json, docs k = .ok json) := by
  have key : ∀ res, loadAll now docs = .ok res → ∀ k, ∃ json, docs k = .ok json := by
    intro res h k
    rw [loadAll_ok_iff] at h
    obtain ⟨a, b, c, d, hA, hB, hC, hD, -⟩ := h
    cases k
    · exact loadLeague_ok_doc now _ _ _ hA
    · exact loadLeague_ok_doc now _ _ _ hB
    · exact loadLeague_ok_doc now _ _ _ hC
    · exact loadLeague_ok_doc now _ _ _ hD
  refine ⟨?_, key⟩
  rintro ⟨k, e, hk⟩
  cases hr : loadAll now docs with
  | error e' => exact ⟨e', rfl⟩
  | ok res =>
      obtain ⟨json, hjson⟩ := key res hr k
      rw [hk] at hjson
      cases hjson

/-- Concrete instantiation of `loadAll_aggregate_failure`: Serie A fails,
the other three leagues succeed, and the aggregate is an error. -/
theorem loadAll_aggregate_failure_witness :
    ∃ e, loadAll 0 (fun k => match k with
        | .serieA => .error "Gagal mengambil data Serie A"
        | _ => .ok ⟨⟨"ok", none⟩, []⟩) = .error e :=
  (loadAll_aggregate_failure 0 _).1 ⟨.serieA, "Gagal mengambil data Serie A", rfl⟩

/-- C2 (code-bug evidence): on a date string that is not zero-padded numeric
`DD/MM/YYYY` the parser does not fail — it returns an Invalid Date — and the
ingestion commits the record to the collection classified `FINISHED` instead
of excluding it or surfacing a load error. -/
theorem malformed_record_silently_coerced :
    parseWIBDate "aa/bb/cccc" "12:00" = .invalidDate ∧
    loadAll 1700000000000 (fun k => .ok (match k with
        | .laLiga => ⟨⟨"La Liga", some "WIB"⟩,
            [⟨1, "aa/bb/cccc", "12:00", ⟨⟨7, "Alpha"⟩, ⟨8, "Beta"⟩⟩⟩]⟩
        | _ => ⟨⟨"", none⟩, []⟩)) =
      .ok [⟨1, "aa/bb/cccc", "12:00", ⟨⟨7, "Alpha"⟩, ⟨8, "Beta"⟩⟩, .laLiga, none,
        .FINISHED⟩] :=
  ⟨rfl, rfl⟩

/-- C6: a refresher tick changes at most the `status` field of each match —
id, date, time, teams, league and kickoff are preserved element-wise, the
new status is the classification of the stored kickoff against the fresh
`now`, and the tick is a pure function of the previous collection (no fetch
or parse is involved in its definition). -/
theorem refreshTick_frame (now : Int) (prev : List Match) :
    (refreshTick now prev).length = prev.length ∧
    List.Forall₂ (fun m m' =>
      m'.id = m.id ∧ m'.date = m.date ∧ m'.time = m.time ∧ m'.teams = m.teams ∧
      m'.league = m.league ∧ m'.kickoff = m.kickoff ∧
      m'.status = calculateStatus (some now) m.kickoff) prev (refreshTick now prev) := by
  constructor
  · simp [refreshTick]
  · induction prev with
    | nil => exact List.Forall₂.nil
    | cons h t ih => exact List.Forall₂.cons ⟨rfl, rfl, rfl, rfl, rfl, rfl, rfl⟩ ih

/-!
### View derivation layer (`App`, App.tsx lines 441–554)

`Array.prototype.sort` has been stable since ES2019, and for a consistent
comparator `cmp` its result is exactly the stable sort by the relation
`le a b ↔ cmp(a, b) ≤ 0`; `List.mergeSort` is that stable sort.  The
comparator of App.tsx lines 464–469 (repeated at 491–496) is

    if (a.status === 'FINISHED' && b.status !== 'FINISHED') return 1;
    if (b.status === 'FINISHED' && a.status !== 'FINISHED') return -1;
    return a.kickoff.getTime() - b.kickoff.getTime();

When either time value is `NaN` the subtraction is `NaN`, which the sort
algorithm coerces to `+0` — a tie.
-/

/-- The `selectedLeagues` state (App.tsx lines 443–445): a set of league keys
that may contain the sentinel `'ALL'`. -/
structure LeagueSelection where
  all : Bool
  leagues : List LeagueKey

/-- The league filter predicate (App.tsx lines 460–463):
`selectedLeagues.has('ALL') || selectedLeagues.has(m.league)`. -/
def leaguePass (sel : LeagueSelection) (m : Match) : Bool :=
  sel.all || sel.leagues.contains m.league

/-- `getTime a - getTime b ≤ 0` as a Bool: ties (`true` both ways) when either
time value is `NaN`, since a `NaN` comparator result is coerced to `+0`. -/
def kickoffLe : JsDate → JsDate → Bool
  | some a, some b => decide (a ≤ b)
  | _, _ => true

/-- `cmp(a, b) ≤ 0` for the finished-last comparator above. -/
def matchLe (a b : Match) : Bool :=
  if a.status = .FINISHED ∧ b.status ≠ .FINISHED then false
  else if b.status = .FINISHED ∧ a.status ≠ .FINISHED then true
  else kickoffLe a.kickoff b.kickoff

/-- The league-filtered, finished-last sorted global list (App.tsx
lines 458–470). -/
def filtered (sel : LeagueSelection) (ms : List Match) : List Match :=
  (ms.filter (leaguePass sel)).mergeSort matchLe

/-- The team spotlight (App.tsx lines 483–498): empty when no team is chosen
(`if (!selectedTeam) return []` — the empty string is falsy), otherwise the
matches where the chosen team plays home or away, sorted by the same
finished-last comparator, then `slice(0, 4)`. -/
def teamMatches (selectedTeam : String) (ms : List Match) : List Match :=
  if selectedTeam = "" then []
  else
    ((ms.filter fun m =>
        m.teams.home.name == selectedTeam || m.teams.away.name == selectedTeam
      ).mergeSort matchLe).take 4

/-- `const MATCHES_PER_PAGE = 6` (App.tsx line 456). -/
def MATCHES_PER_PAGE : Nat := 6

/-- `Math.ceil(filteredMatches.length / MATCHES_PER_PAGE)` (App.tsx
lines 712–714); on naturals the ceiling of `n / 6` is `(n + 5) / 6`. -/
def totalPages (matchCount : Nat) : Nat :=
  (matchCount + MATCHES_PER_PAGE - 1) / MATCHES_PER_PAGE

/-- The page slice (App.tsx lines 715–719):
`startIndex = (currentPage - 1) * MATCHES_PER_PAGE` and
`filteredMatches.slice(startIndex, startIndex + MATCHES_PER_PAGE)`. -/
def displayMatches (filteredMatches : List Match) (currentPage : Nat) : List Match :=
  (filteredMatches.drop ((currentPage - 1) * MATCHES_PER_PAGE)).take MATCHES_PER_PAGE

/-!
#### The stable sort: congruence and a transitive total key order

`matchLe` is not transitive on matches with Invalid-Date kickoffs (`NaN`
ties everything), but on valid kickoffs it coincides with the decidable
lexicographic order `matchKeyLe` on the key (finished?, time value), which
is transitive and total.  `mergeSort` only compares elements of its input
list, so the two relations sort such a list identically.
-/

/-- 1 for a `FINISHED` match, 0 otherwise: the first component of the
comparator's sort key. -/
def finRank (m : Match) : Nat := if m.status = .FINISHED then 1 else 0

/-- The time value of a match's kickoff, defaulting to 0; only used on
matches whose kickoff is a valid date. -/
def kickoffTime (m : Match) : Int := m.kickoff.getD 0

/-- Lexicographic order on (`finRank`, `kickoffTime`). -/
def matchKeyLe (a b : Match) : Bool :=
  decide (finRank a < finRank b ∨ (finRank a = finRank b ∧ kickoffTime a ≤ kickoffTime b))

theorem matchKeyLe_trans : ∀ a b c : Match,
    matchKeyLe a b → matchKeyLe b c → matchKeyLe a c := by
  intro a b c
  simp only [matchKeyLe, decide_eq_true_eq]
  omega

theorem matchKeyLe_total : ∀ a b : Match, matchKeyLe a b || matchKeyLe b a := by
  intro a b
  simp only [matchKeyLe, Bool.or_eq_true, decide_eq_true_eq]
  omega

/-- On matches with valid kickoffs the comparator order is the key order. -/
theorem matchLe_eq_matchKeyLe {a b : Match} (ha : a.kickoff.isSome)
    (hb : b.kickoff.isSome) : matchLe a b = matchKeyLe a b := by
  obtain ⟨ta, hta⟩ := Option.isSome_iff_exists.mp ha
  obtain ⟨tb, htb⟩ := Option.isSome_iff_exists.mp hb
  by_cases hA : a.status = .FINISHED <;> by_cases hB : b.status = .FINISHED <;>
    simp [matchLe, matchKeyLe, finRank, kickoffTime, kickoffLe, hta, htb, hA, hB]

theorem merge_congr {α : Type} {le le' : α → α → Bool} :
    ∀ {xs ys : List α}, (∀ a ∈ xs, ∀ b ∈ ys, le a b = le' a b) →
      List.merge xs ys le = List.merge xs ys le'
  | [], ys, _ => by simp
  | x :: xs, [], _ => by simp
  | x :: xs, y :: ys, h => by
    simp only [List.merge]
    rw [h x (List.mem_cons_self x xs) y (List.mem_cons_self y ys)]
    by_cases hc : le' x y = true
    · simp only [if_pos hc]
      exact congrArg _ (merge_congr fun a ha b hb => h a (List.mem_cons_of_mem x ha) b hb)
    · simp only [if_neg hc]
      exact congrArg _ (merge_congr fun a ha b hb => h a ha b (List.mem_cons_of_mem y hb))
termination_by xs ys => xs.length + ys.length

/-- `mergeSort` only ever compares elements of its input list, so two
relations agreeing on the list sort it identically. -/
theorem mergeSort_congr {α : Type} {le le' : α → α → Bool} :
    ∀ (l : List α), (∀ a ∈ l, ∀ b ∈ l, le a b = le' a b) →
      l.mergeSort le = l.mergeSort le'
  | [], _ => by simp
  | [a], _ => by simp
  | a :: b :: xs, h => by
    have hl1 : (List.splitInTwo ⟨a :: b :: xs, rfl⟩).1.1.length < xs.length + 1 + 1 := by
      simp [List.splitInTwo_fst]; omega
    have hl2 : (List.splitInTwo ⟨a :: b :: xs, rfl⟩).2.1.length < xs.length + 1 + 1 := by
      simp [List.splitInTwo_snd]; omega
    have hm1 : ∀ x ∈ (List.splitInTwo ⟨a :: b :: xs, rfl⟩).1.1, x ∈ a :: b :: xs := by
      intro x hx
      rw [List.splitInTwo_fst] at hx
      exact List.mem_of_mem_take hx
    have hm2 : ∀ x ∈ (List.splitInTwo ⟨a :: b :: xs, rfl⟩).2.1, x ∈ a :: b :: xs := by
      intro x hx
      rw [List.splitInTwo_snd] at hx
      exact List.mem_of_mem_drop hx
    rw [List.mergeSort, List.mergeSort]
    rw [mergeSort_congr (List.splitInTwo ⟨a :: b :: xs, rfl⟩).1.1
      (fun x hx y hy => h x (hm1 x hx) y (hm1 y hy))]
    rw [mergeSort_congr (List.splitInTwo ⟨a :: b :: xs, rfl⟩).2.1
      (fun x hx y hy => h x (hm2 x hx) y (hm2 y hy))]
    exact merge_congr fun x hx y hy =>
      h x (hm1 x (List.mem_mergeSort.mp hx)) y (hm2 y (List.mem_mergeSort.mp hy))
termination_by l => l.length

/-- The pointwise consequence of the key order used in the sortedness
statements. -/
theorem matchKeyLe_imp {a b : Match} (h : matchKeyLe a b = true) :
    (a.status = .FINISHED → b.status = .FINISHED) ∧
    (∀ ta tb, (a.status = .FINISHED ↔ b.status = .FINISHED) →
      a.kickoff = some ta → b.kickoff = some tb → ta ≤ tb) := by
  simp only [matchKeyLe, decide_eq_true_eq, finRank] at h
  constructor
  · intro hA
    by_cases hB : b.status = .FINISHED
    · exact hB
    · simp [hA, hB] at h
  · intro ta tb hiff hka hkb
    have : kickoffTime a = ta := by simp [kickoffTime, hka]
    have : kickoffTime b = tb := by simp [kickoffTime, hkb]
    by_cases hA : a.status = .FINISHED <;> by_cases hB : b.status = .FINISHED <;>
      simp_all

/-- Specification of the finished-last stable sort on a collection of
matches with valid kickoffs: it permutes the input; finished matches come
after unfinished ones, each group nondecreasing by kickoff; and tied
adjacent input pairs keep their order (stability). -/
theorem mergeSort_matchLe_spec (l : List Match) (hval : ∀ m ∈ l, m.kickoff.isSome) :
    List.Perm (l.mergeSort matchLe) l ∧
    (l.mergeSort matchLe).Pairwise (fun a b =>
      (a.status = .FINISHED → b.status = .FINISHED) ∧
      (∀ ta tb, (a.status = .FINISHED ↔ b.status = .FINISHED) →
        a.kickoff = some ta → b.kickoff = some tb → ta ≤ tb)) ∧
    (∀ a b, matchLe a b → matchLe b a → List.Sublist [a, b] l →
      List.Sublist [a, b] (l.mergeSort matchLe)) := by
  have hcong : l.mergeSort matchLe = l.mergeSort matchKeyLe :=
    mergeSort_congr l fun a ha b hb => matchLe_eq_matchKeyLe (hval a ha) (hval b hb)
  refine ⟨List.mergeSort_perm l matchLe, ?_, ?_⟩
  · rw [hcong]
    exact (List.sorted_mergeSort matchKeyLe_trans matchKeyLe_total l).imp matchKeyLe_imp
  · intro a b hab hba hsub
    rw [hcong]
    have ha : a.kickoff.isSome := hval a (hsub.subset (by simp))
    have hb : b.kickoff.isSome := hval b (hsub.subset (by simp))
    have : matchKeyLe a b := by rw [← matchLe_eq_matchKeyLe ha hb]; exact hab
    exact List.sublist_mergeSort matchKeyLe_trans matchKeyLe_total
      (by simp [this]) hsub

/-- C4: the league-filtered sorted list contains exactly the matches passing
the league filter; every `FINISHED` match appears after every non-`FINISHED`
match; within each of the two groups kickoffs are non-decreasing; and the
sort is stable — a pair tied under the comparator keeps its input order. -/
theorem filtered_sorted_spec (sel : LeagueSelection) (ms : List Match)
    (hval : ∀ m ∈ ms, m.kickoff.isSome) :
    List.Perm (filtered sel ms) (ms.filter (leaguePass sel)) ∧
    (filtered sel ms).Pairwise (fun a b =>
      (a.status = .FINISHED → b.status = .FINISHED) ∧
      (∀ ta tb, (a.status = .FINISHED ↔ b.status = .FINISHED) →
        a.kickoff = some ta → b.kickoff = some tb → ta ≤ tb)) ∧
    (∀ a b, matchLe a b → matchLe b a →
      List.Sublist [a, b] (ms.filter (leaguePass sel)) →
      List.Sublist [a, b] (filtered sel ms)) :=
  mergeSort_matchLe_spec (ms.filter (leaguePass sel))
    (fun m hm => hval m (List.mem_of_mem_filter hm))

/-- Concrete instantiation of `filtered_sorted_spec`: a finished La Liga
match and an upcoming Premier League match under the `'ALL'` selection. -/
theorem filtered_sorted_spec_witness :
    List.Perm
      (filtered ⟨true, []⟩
        [⟨2, "02/01/2024", "20:00", ⟨⟨3, "C"⟩, ⟨4, "D"⟩⟩, .laLiga, some 0, .FINISHED⟩,
         ⟨1, "01/01/2024", "19:00", ⟨⟨1, "A"⟩, ⟨2, "B"⟩⟩, .premierLeague, some 1000, .UPCOMING⟩])
      ([⟨2, "02/01/2024", "20:00", ⟨⟨3, "C"⟩, ⟨4, "D"⟩⟩, .laLiga, some 0, .FINISHED⟩,
        ⟨1, "01/01/2024", "19:00", ⟨⟨1, "A"⟩, ⟨2, "B"⟩⟩, .premierLeague, some 1000, .UPCOMING⟩].filter
        (leaguePass ⟨true, []⟩)) :=
  (filtered_sorted_spec ⟨true, []⟩ _ (by decide)).1

/-- C7: the team spotlight contains only matches the chosen team plays in,
is ordered by the finished-last rule, and is the 4-element truncation of the
sorted qualifying subset, so its length is `min 4 (number qualifying)`. -/
theorem teamMatches_spec (selectedTeam : String) (ms : List Match)
    (hteam : selectedTeam ≠ "") (hval : ∀ m ∈ ms, m.kickoff.isSome) :
    (∀ m ∈ teamMatches selectedTeam ms,
      m.teams.home.name = selectedTeam ∨ m.teams.away.name = selectedTeam) ∧
    (teamMatches selectedTeam ms).Pairwise (fun a b =>
      (a.status = .FINISHED → b.status = .FINISHED) ∧
      (∀ ta tb, (a.status = .FINISHED ↔ b.status = .FINISHED) →
        a.kickoff = some ta → b.kickoff = some tb → ta ≤ tb)) ∧
    (teamMatches selectedTeam ms).length =
      min 4 (ms.filter fun m => m.teams.home.name == selectedTeam ||
        m.teams.away.name == selectedTeam).length ∧
    teamMatches selectedTeam ms =
      ((ms.filter fun m => m.teams.home.name == selectedTeam ||
        m.teams.away.name == selectedTeam).mergeSort matchLe).take 4 := by
  have heq : teamMatches selectedTeam ms =
      ((ms.filter fun m => m.teams.home.name == selectedTeam ||
        m.teams.away.name == selectedTeam).mergeSort matchLe).take 4 := by
    simp [teamMatches, hteam]
  obtain ⟨hperm, hpair, -⟩ :=
    mergeSort_matchLe_spec
      (ms.filter fun m => m.teams.home.name == selectedTeam ||
        m.teams.away.name == selectedTeam)
      (fun m hm => hval m (List.mem_of_mem_filter hm))
  refine ⟨?_, ?_, ?_, heq⟩
  · intro m hm
    rw [heq] at hm
    have hm' := List.mem_mergeSort.mp (List.mem_of_mem_take hm)
    have := List.of_mem_filter hm'
    simpa using this
  · rw [heq]
    exact List.Pairwise.sublist (List.take_sublist _ _) hpair
  · rw [heq, List.length_take, List.length_mergeSort]

/-- Concrete instantiation of `teamMatches_spec`: team "A" qualifies in one
of two matches. -/
theorem teamMatches_spec_witness :
    (teamMatches "A"
      [⟨1, "01/01/2024", "19:00", ⟨⟨1, "A"⟩, ⟨2, "B"⟩⟩, .premierLeague, some 1000, .UPCOMING⟩,
       ⟨2, "02/01/2024", "20:00", ⟨⟨3, "C"⟩, ⟨4, "D"⟩⟩, .laLiga, some 0, .FINISHED⟩]).length =
      min 4
        (([⟨1, "01/01/2024", "19:00", ⟨⟨1, "A"⟩, ⟨2, "B"⟩⟩, .premierLeague, some 1000, .UPCOMING⟩,
          ⟨2, "02/01/2024", "20:00", ⟨⟨3, "C"⟩, ⟨4, "D"⟩⟩, .laLiga, some 0, .FINISHED⟩] : List Match).filter
          fun m => m.teams.home.name == "A" || m.teams.away.name == "A").length :=
  (teamMatches_spec "A" _ (by decide) (by decide)).2.2.1

/-- C8: the page count is the ceiling of `matchCount / 6` (the least number
of 6-element pages covering the list); page `p` (1-indexed) shows exactly
the elements at indices `(p-1)*6 … p*6 - 1`; and page 1 is non-empty
whenever the refined list is non-empty. -/
theorem pagination_spec (l : List Match) (p : Nat) (hp : 1 ≤ p) :
    (l.length ≤ MATCHES_PER_PAGE * totalPages l.length ∧
      (∀ q, l.length ≤ MATCHES_PER_PAGE * q → totalPages l.length ≤ q)) ∧
    (displayMatches l p).length =
      min MATCHES_PER_PAGE (l.length - (p - 1) * MATCHES_PER_PAGE) ∧
    (∀ i, i < MATCHES_PER_PAGE →
      (displayMatches l p)[i]? = l[(p - 1) * MATCHES_PER_PAGE + i]?) ∧
    (l ≠ [] → displayMatches l 1 ≠ []) := by
  refine ⟨⟨?_, ?_⟩, ?_, ?_, ?_⟩
  · simp only [totalPages, MATCHES_PER_PAGE]
    omega
  · intro q
    simp only [totalPages, MATCHES_PER_PAGE]
    omega
  · simp [displayMatches]
  · intro i hi
    simp only [displayMatches]
    rw [List.getElem?_take_of_lt hi, List.getElem?_drop]
  · intro hne
    simp [displayMatches, List.take_eq_nil_iff, MATCHES_PER_PAGE, hne]

/-- Concrete instantiation of `pagination_spec`: a one-element list has a
non-empty first page. -/
theorem pagination_spec_witness :
    displayMatches
      [⟨1, "01/01/2024", "19:00", ⟨⟨1, "A"⟩, ⟨2, "B"⟩⟩, .premierLeague, some 0, .LIVE⟩]
      1 ≠ [] :=
  (pagination_spec _ 1 (by decide)).2.2.2 (by simp)

/-!
#### Pagination display (`Pagination`, App.tsx lines 335–407)
-/

/-- An entry of the visible-pages array: a page number or the `'...'`
marker. -/
inductive PageItem where
  | page (n : Nat)
  | ellipsis
deriving DecidableEq, Repr

/-- `for (let i = lo; i ≤ hi; i++) pages.push(i)`, unrolled on the
iteration count. -/
def pushRangeAux : Nat → Nat → List PageItem
  | _, 0 => []
  | lo, n + 1 => .page lo :: pushRangeAux (lo + 1) n

/-- The loop `for (let i = lo; i ≤ hi; i++) pages.push(i)` runs
`hi + 1 - lo` times. -/
def pushRange (lo hi : Nat) : List PageItem := pushRangeAux lo (hi + 1 - lo)

/-- `getVisiblePages` (App.tsx lines 346–373), transliterated:
`showEllipsis = totalPages > 7`; without ellipsis push `1 … totalPages`;
otherwise three cases on `currentPage`. -/
def getVisiblePages (currentPage totalPageCount : Nat) : List PageItem :=
  if totalPageCount ≤ 7 then pushRange 1 totalPageCount
  else if currentPage ≤ 4 then
    pushRange 1 5 ++ [.ellipsis, .page totalPageCount]
  else if totalPageCount - 3 ≤ currentPage then
    .page 1 :: .ellipsis :: pushRange (totalPageCount - 4) totalPageCount
  else
    .page 1 :: .ellipsis ::
      (pushRange (currentPage - 1) (currentPage + 1) ++
        [.ellipsis, .page totalPageCount])

theorem pushRangeAux_eq : ∀ (n lo : Nat),
    pushRangeAux lo n = (List.range' lo n).map PageItem.page
  | 0, _ => rfl
  | n + 1, lo => by
    rw [List.range'_succ]
    simpa [pushRangeAux] using pushRangeAux_eq n (lo + 1)

theorem pushRange_eq (lo hi : Nat) :
    pushRange lo hi = (List.range' lo (hi + 1 - lo)).map PageItem.page :=
  pushRangeAux_eq _ _

/-- C9: the ellipsis policy — all pages shown when `totalPages ≤ 7`;
pages `1…5`, ellipsis, last when the current page is `≤ 4`; first,
ellipsis, last five when the current page is within 3 of the end; first,
ellipsis, a 3-page window around the current page, ellipsis, last
otherwise. -/
theorem getVisiblePages_policy (p T : Nat) (hp : 1 ≤ p) (hpT : p ≤ T) :
    (T ≤ 7 → getVisiblePages p T = (List.range' 1 T).map PageItem.page) ∧
    (7 < T → p ≤ 4 →
      getVisiblePages p T =
        (List.range' 1 5).map PageItem.page ++ [PageItem.ellipsis, PageItem.page T]) ∧
    (7 < T → 4 < p → T - 3 ≤ p →
      getVisiblePages p T =
        PageItem.page 1 :: PageItem.ellipsis ::
          (List.range' (T - 4) 5).map PageItem.page) ∧
    (7 < T → 4 < p → p < T - 3 →
      getVisiblePages p T =
        PageItem.page 1 :: PageItem.ellipsis ::
          ((List.range' (p - 1) 3).map PageItem.page ++
            [PageItem.ellipsis, PageItem.page T])) := by
  refine ⟨?_, ?_, ?_, ?_⟩
  · intro hT
    have h1 : T + 1 - 1 = T := by omega
    rw [getVisiblePages, if_pos hT, pushRange_eq, h1]
  · intro hT hp4
    rw [getVisiblePages, if_neg (by omega), if_pos hp4, pushRange_eq]
  · intro hT hp4 hend
    have h5 : T + 1 - (T - 4) = 5 := by omega
    rw [getVisiblePages, if_neg (by omega), if_neg (by omega), if_pos hend,
      pushRange_eq, h5]
  · intro hT hp4 hmid
    have h3 : p + 1 + 1 - (p - 1) = 3 := by omega
    rw [getVisiblePages, if_neg (by omega), if_neg (by omega), if_neg (by omega),
      pushRange_eq, h3]

/-- Concrete instantiation of `getVisiblePages_policy`: page 10 of 20. -/
theorem getVisiblePages_policy_witness :
    getVisiblePages 10 20 =
      PageItem.page 1 :: PageItem.ellipsis ::
        ((List.range' 9 3).map PageItem.page ++
          [PageItem.ellipsis, PageItem.page 20]) :=
  (getVisiblePages_policy 10 20 (by decide) (by decide)).2.2.2
    (by decide) (by decide) (by decide)

/-- C10 (counterexample): `parseWIBDate` does not always return a `Date` —
with a date string of fewer than three `/`-separated fields the destructured
month and year are `undefined` and `undefined.toString()` throws a
`TypeError` while the ISO string is built. -/
theorem parseWIBDate_throws_counterexample :
    parseWIBDate "12" "00:00" = .throws := rfl

/-- C10 (amended): `parseWIBDate` throws precisely when the date string
splits into fewer than 3 fields or the time string into fewer than 2 (the
thrown `TypeError` is then caught by the load's `try`/`catch` and surfaced
as a load error); for every other pair of input strings it returns a `Date`
value, with non-numeric fields yielding an Invalid Date.  `calculateStatus`
is total over all `Date` pairs and, for an Invalid-Date kickoff, every NaN
comparison is false, so it returns `FINISHED`; hence a malformed record with
enough separators enters the collection classified `FINISHED`. -/
theorem parseWIBDate_totality_amended (dateStr timeStr : String) (now : Int) :
    (parseWIBDate dateStr timeStr = .throws ↔
      (jsSplit '/' dateStr.data).length < 3 ∨ (jsSplit ':' timeStr.data).length < 2) ∧
    calculateStatus (some now) none = .FINISHED ∧
    parseWIBDate "aa/bb/cccc" "09:xx" = .invalidDate := by
  refine ⟨?_, rfl, rfl⟩
  unfold parseWIBDate
  by_cases h : (jsSplit '/' dateStr.data).length < 3 ∨ (jsSplit ':' timeStr.data).length < 2
  · have hb : ((jsSplit '/' dateStr.data).length < 3 || (jsSplit ':' timeStr.data).length < 2) = true := by
      simpa using h
    simp [hb, h]
  · have hb : ((jsSplit '/' dateStr.data).length < 3 || (jsSplit ':' timeStr.data).length < 2) = false := by
      simpa using h
    simp only [hb, Bool.false_eq_true, if_false]
    constructor
    · intro hcontra
      exfalso
      revert hcontra
      split
      · split <;> simp
      · simp
    · intro hcontra
      exact absurd hcontra h
